import Mathlib

/- Verification of the hierarchical chunk-indexing and retrieval-fusion core of
the ZoningByLaw repository (src/app/chunks_pdf.py, src/app/chunk_pdf_local.py,
src/app/main.py).

Modelling conventions: Python strings are lists of characters; the Python dict
hierarchy_map is an association list whose lookup takes the most recent
binding, matching dict assignment; floating-point vectors are lists of
rationals; a Python function returning None on some paths returns an Option.
While loops are fuel-indexed structural recursions; every fuel bound is
justified next to its definition, and the loop equations at the chosen fuel
are proved below (pathLoop_eq and the stability lemmas). -/

set_option maxRecDepth 4000

/-- Python strings, modelled as lists of characters. -/
abbrev Str := List Char

/-- The character list of a string literal. -/
def str (s : String) : Str := s.data

/-- ASCII whitespace, as stripped by Python str.strip and matched by the regex
class for whitespace. -/
def isWs (c : Char) : Bool :=
  c == ' ' || c == '\t' || c == '\n' || c == '\r' || c == '\x0b' || c == '\x0c'

/-- Python str.strip(): remove leading and trailing whitespace. -/
def strip (s : Str) : Str :=
  ((s.dropWhile isWs).reverse.dropWhile isWs).reverse

/-- Python sep.join(parts): the parts interleaved with the separator; the empty
list joins to the empty string. -/
def joinSep (sep : Str) : List Str → Str
  | [] => []
  | [p] => p
  | p :: ps => p ++ sep ++ joinSep sep ps

/-- Python code.split('.'): split at every dot; no dot gives the one-part list,
and the result is never empty. -/
def splitOnDot : Str → List Str
  | [] => [[]]
  | c :: cs =>
    if c = '.' then [] :: splitOnDot cs
    else
      match splitOnDot cs with
      | [] => [[c]]
      | p :: ps => (c :: p) :: ps

/-- Python joining with a dot separator. -/
def joinDot : List Str → Str := joinSep ['.']

/-- Python dot-joining of code.split('.')[:-1], the truncation step of
get_full_hierarchy_path (chunks_pdf.py line 74, chunk_pdf_local.py line 106):
drop the last dot-separated component. -/
def truncOnce (code : Str) : Str := joinDot (splitOnDot code).dropLast

/-- Greedy match of the regex fragment for zero or more groups of a dot
followed by one or more digits, returning (consumed, rest). Each iteration
consumes at least two characters, so fuel s.length + 1 is more than enough
for takeDotGroups below. -/
def takeDotGroupsF : Nat → Str → Str × Str
  | 0, s => ([], s)
  | fuel + 1, s =>
    match s with
    | '.' :: rest =>
      if rest.takeWhile Char.isDigit = [] then ([], s)
      else
        let p := takeDotGroupsF fuel (rest.dropWhile Char.isDigit)
        ('.' :: (rest.takeWhile Char.isDigit ++ p.1), p.2)
    | _ => ([], s)

/-- Maximal munch of the dot-digit groups of the heading code. -/
def takeDotGroups (s : Str) : Str × Str := takeDotGroupsF (s.length + 1) s

/-- One attempt of the heading pattern of chunks_pdf.py lines 28-31 and
chunk_pdf_local.py lines 60-63 at a position where the start-of-line anchor
matches: the literal code start 150.7, then greedily the dot-digit groups,
then at least one whitespace character, then the title.

Regex semantics reproduced here: if the character after the maximal munch of
the groups is not whitespace, the whole attempt fails, because backtracking
into the groups only puts the cursor onto a dot or a digit, never onto
whitespace. The whitespace run is consumed greedily and may cross newlines,
so the title can come from a later line; the title group cannot cross a
newline, and the first pattern's end-of-line alternative always succeeds at
the end of the title line, so both patterns of the Python pattern list accept
exactly the same texts with the same groups. The empty-title branch is
unreachable for suffixes of a stripped text (the rest of a stripped text is
never all whitespace). -/
def matchHeadingAt (u : Str) : Option (Str × Str) :=
  if u.take 5 = str "150.7" then
    let g := takeDotGroups (u.drop 5)
    match g.2 with
    | [] => none
    | c :: _ =>
      if isWs c then
        let afterWs := g.2.dropWhile isWs
        let t := afterWs.takeWhile (fun ch => ch != '\n')
        if t = [] then none else some (str "150.7" ++ g.1, t)
      else none
  else none

/-- re.search with the multiline flag tries the pattern anchored at the start
of each line, leftmost position first: position 0 of the text, then the
position after each newline. Every step consumes at least the current line
and its newline, so fuel u.length + 1 is enough for scanLines below. -/
def scanLinesF : Nat → Str → Option (Str × Str)
  | 0, _ => none
  | fuel + 1, u =>
    match matchHeadingAt u with
    | some x => some x
    | none =>
      match u.dropWhile (fun ch => ch != '\n') with
      | [] => none
      | _ :: tl => scanLinesF fuel tl

/-- The leftmost line-anchored match of the heading pattern in u. -/
def scanLines (u : Str) : Option (Str × Str) := scanLinesF (u.length + 1) u

/-- The suffixes of u at which the multiline start-of-line anchor can match:
u itself and the suffix after each newline, in leftmost order. Same fuel as
scanLinesF. -/
def lineSuffixesF : Nat → Str → List Str
  | 0, _ => []
  | fuel + 1, u =>
    u ::
      match u.dropWhile (fun ch => ch != '\n') with
      | [] => []
      | _ :: tl => lineSuffixesF fuel tl

/-- All line-start suffixes of u. -/
def lineSuffixes (u : Str) : List Str := lineSuffixesF (u.length + 1) u

/-- extract_heading_and_hierarchy (chunks_pdf.py lines 24-42 and
chunk_pdf_local.py lines 56-74, identical): strip the text, search the
patterns with the multiline flag, and on a match return the code group, the
title group cut at the first newline and stripped (the group contains no
newline, so only surrounding whitespace is removed), and the level, which is
the number of dots in the code. The no-heading outcome (None, None, None) is
modelled as none. -/
def extract_heading_and_hierarchy (text : Str) : Option (Str × Str × Nat) :=
  match scanLines (strip text) with
  | some (code, title) => some (code, strip title, code.count '.')
  | none => none

/-- One hierarchy_map entry: the dict of title, level and content built in
build_hierarchical_structure. -/
structure HEntry where
  title : Str
  level : Nat
  content : Str
deriving DecidableEq

/-- The hierarchy_map dict as an association list: assignment conses the new
binding in front and lookup takes the first binding, so a duplicate code
resolves to its most recently written entry, matching dict assignment. -/
abbrev HMap := List (Str × HEntry)

/-- Dict lookup: first (most recent) binding wins. -/
def lookupCode (m : HMap) (code : Str) : Option HEntry :=
  match m with
  | [] => none
  | (k, v) :: rest => if k = code then some v else lookupCode rest code

/-- build_hierarchical_structure (chunks_pdf.py lines 44-59, chunk_pdf_local.py
lines 76-91): one pass over all chunks recording title, level and content per
heading code. The guard that both heading_code and heading_title are truthy
is equivalent to the parser returning a heading, since a returned code always
starts with the nonempty literal 150.7 and a returned title is nonempty. -/
def build_hierarchical_structure (texts : List Str) : HMap :=
  texts.foldl
    (fun m content =>
      match extract_heading_and_hierarchy content with
      | some (code, title, level) => (code, ⟨title, level, content⟩) :: m
      | none => m)
    []

/-- The while loop of get_full_hierarchy_path: visit the code and its
dot-truncation prefixes, collecting the titles of the codes present in the
map in visit (leaf-to-root) order; an absent code contributes nothing and
does not stop the walk; the walk stops after the first dot-free code. Each
truncation strictly shortens the code (length_truncOnce_lt below), so fuel
code.length + 1 is enough; pathLoopF_stable and pathLoop_eq prove it. -/
def pathLoopF (m : HMap) : Nat → Str → List Str
  | 0, _ => []
  | fuel + 1, code =>
    if code = [] then []
    else
      (match lookupCode m code with
       | some e => [e.title]
       | none => []) ++
        (if '.' ∈ code then pathLoopF m fuel (truncOnce code) else [])

/-- The path_parts list of get_full_hierarchy_path, in append (leaf-to-root)
order. -/
def pathLoop (m : HMap) (code : Str) : List Str := pathLoopF m (code.length + 1) code

/-- get_full_hierarchy_path (chunks_pdf.py lines 61-79, chunk_pdf_local.py
lines 93-111): resolve the ancestor chain of a code by repeated
last-component truncation, then reverse to root-to-leaf order and join with
the fixed delimiter. An empty code returns the empty string at once. -/
def get_full_hierarchy_path (code : Str) (m : HMap) : Str :=
  if code = [] then []
  else joinSep (str " > ") (pathLoop m code).reverse

/-- The codes visited by the while loop of get_full_hierarchy_path, leaf
first: the code itself and its dot-truncation prefixes down to the first
dot-free one. Same fuel as pathLoopF. -/
def chainCodesF : Nat → Str → List Str
  | 0, _ => []
  | fuel + 1, code =>
    if code = [] then []
    else code :: (if '.' ∈ code then chainCodesF fuel (truncOnce code) else [])

/-- The code and its dot-truncation prefixes, leaf first. -/
def chainCodes (code : Str) : List Str := chainCodesF (code.length + 1) code

/-- Modelled from the spec, for comparison with the source: the resolution
algorithm exactly as the specification words it, stopping as soon as the
current code has no remaining dot separator or is absent from the index.
Titles accumulate root-to-leaf. The source implementation does not stop on
absence; see claims C5 and C6. -/
def resolveSpecStopsF (m : HMap) : Nat → Str → List Str
  | 0, _ => []
  | fuel + 1, code =>
    if code = [] then []
    else
      match lookupCode m code with
      | none => []
      | some e =>
        (if '.' ∈ code then resolveSpecStopsF m fuel (truncOnce code) else []) ++ [e.title]

/-- The specification's stop-on-absence resolution, root-to-leaf. -/
def resolveSpecStops (code : Str) (m : HMap) : List Str :=
  resolveSpecStopsF m (code.length + 1) code

/-- Modelled from the spec, amended: the same walk, but an absent code
contributes no title and does not stop the loop; only running out of dot
separators stops it. Titles accumulate root-to-leaf. -/
def resolveSpecSkipsF (m : HMap) : Nat → Str → List Str
  | 0, _ => []
  | fuel + 1, code =>
    if code = [] then []
    else
      (if '.' ∈ code then resolveSpecSkipsF m fuel (truncOnce code) else []) ++
        (match lookupCode m code with
         | some e => [e.title]
         | none => [])

/-- The amended (skip-on-absence) resolution, root-to-leaf. -/
def resolveSpecSkips (code : Str) (m : HMap) : List Str :=
  resolveSpecSkipsF m (code.length + 1) code

/-- The payload of one upserted point (chunks_pdf.py lines 134-147,
chunk_pdf_local.py lines 212-225). The embedding vector is omitted: the
payload does not depend on it, and get_embeddings produces exactly one
vector per chunk (claim C8), so the zip of embeddings and texts walks the
chunks in order. Page and source metadata are copied from the external
loader unchanged and are not modelled. -/
structure ChunkRecord where
  id : Nat
  text : Str
  heading_code : Str
  title : Str
  hierarchy : Str
  level : Nat
  chunk_index : Nat
deriving DecidableEq

/-- The update of current_hierarchy_stack for one chunk (chunks_pdf.py lines
130-132, chunk_pdf_local.py lines 207-209): on a heading of level L, truncate
the stack to its first L entries and append the new title; otherwise leave it
unchanged. -/
def stackStep (stack : List Str) (content : Str) : List Str :=
  match extract_heading_and_hierarchy content with
  | some (_, heading_title, level) => stack.take level ++ [heading_title]
  | none => stack

/-- The point-building loop of upsert_embeddings_to_qdrant (chunks_pdf.py lines
116-147, chunk_pdf_local.py lines 191-226; the payload logic is identical): a
heading chunk takes its hierarchy from the prebuilt map, a headingless chunk
from the running stack (empty stack giving the empty string). -/
def recordsLoop (m : HMap) : Nat → List Str → List Str → List ChunkRecord
  | _, _, [] => []
  | idx, stack, content :: rest =>
    { id := idx
      text := content
      heading_code :=
        match extract_heading_and_hierarchy content with
        | some (code, _, _) => code
        | none => []
      title :=
        match extract_heading_and_hierarchy content with
        | some (_, heading_title, _) => heading_title
        | none => []
      hierarchy :=
        match extract_heading_and_hierarchy content with
        | some (code, _, _) => get_full_hierarchy_path code m
        | none => if stack = [] then [] else joinSep (str " > ") stack
      level :=
        match extract_heading_and_hierarchy content with
        | some (_, _, level) => level
        | none => 0
      chunk_index := idx } :: recordsLoop m (idx + 1) (stackStep stack content) rest

/-- The pure core of upsert_embeddings_to_qdrant: the list of point payloads in
chunk order. Batching (chunk_pdf_local.py lines 234-244) only groups network
calls and does not change the points. -/
def upsert_points (texts : List Str) : List ChunkRecord :=
  recordsLoop (build_hierarchical_structure texts) 0 [] texts

/-- get_embeddings (chunks_pdf.py lines 81-98, chunk_pdf_local.py lines
113-131): one embedding call per text; a call that raises is modelled by the
service function returning none and is substituted with the 768-dimensional
zero vector. Vector components are modelled as rationals. -/
def get_embeddings (embed_content : Str → Option (List Rat)) (texts : List Str) :
    List (List Rat) :=
  texts.map fun text =>
    match embed_content text with
    | some v => v
    | none => List.replicate 768 0

/-- Outcome of the get-collection call: the collection is absent, or present
with a point count. -/
inductive CollectionInfo where
  | absent : CollectionInfo
  | present : Nat → CollectionInfo
deriving DecidableEq

/-- search_similar_texts of chunk_pdf_local.py (lines 253-297): return None
when the collection is missing, or present but empty, or the query embedding
failed (generate_query_embedding returns the empty list on failure, line
149); otherwise the hits produced by the external index call, supplied here
as a parameter. The chunks_pdf.py variant (lines 153-168) performs none of
these checks and calls the index directly. The top-k limit only parametrises
the external call and is not modelled. -/
def search_similar_texts {α : Type} (info : CollectionInfo)
    (query_embedding : List Rat) (query_points : List α) : Option (List α) :=
  match info with
  | .absent => none
  | .present points_count =>
    if points_count = 0 then none
    else if query_embedding = [] then none
    else some query_points

/-- The result of transform_query (query_transormer.py): sub-queries, combined
query, best query and original query. -/
structure QueryResult where
  sub_queries : List Str
  combined_query : Str
  best_query : Str
  original_query : Str

/-- The header line of format_search_results (main.py line 84), naming the
query the block belongs to. -/
def headerOf (query : Str) : Str :=
  str "\n=== Results for query: " ++ query ++ str " ===\n"

/-- One result block of format_search_results (main.py lines 86-100). The
payload stored by this pipeline has keys text, heading_code, title and
hierarchy among others; it has no heading_title key, so the lookup of
heading_title always yields None and the Title line is never produced, and
the default text is never used. Scores are floats; their rendering is
abstracted by fmtScore. -/
def formatHit {σ : Type} (fmtScore : σ → Str) (i : Nat) (hit : σ × ChunkRecord) : Str :=
  str "\nResult #" ++ (Nat.repr i).data ++ str " (Score: " ++ fmtScore hit.1 ++ str "):\n"
    ++ (if hit.2.hierarchy = [] then [] else str "Section: " ++ hit.2.hierarchy ++ str "\n")
    ++ (if hit.2.heading_code = [] then [] else str "Code: " ++ hit.2.heading_code ++ str "\n")
    ++ str "Text: " ++ hit.2.text ++ str "\n"
    ++ str "---\n"

/-- The enumeration of results.points starting at 1, one block per hit. -/
def formatHits {σ : Type} (fmtScore : σ → Str) : Nat → List (σ × ChunkRecord) → Str
  | _, [] => []
  | i, hit :: rest => formatHit fmtScore i hit ++ formatHits fmtScore (i + 1) rest

/-- format_search_results (main.py lines 82-102): the labeled header followed
by the hit blocks in index order. -/
def format_search_results {σ : Type} (fmtScore : σ → Str)
    (hits : List (σ × ChunkRecord)) (query : Str) : Str :=
  headerOf query ++ formatHits fmtScore 1 hits

/-- The fixed variant order of process_query (main.py lines 167-187): best
query, combined query, original query, then the sub-queries in decomposition
order. -/
def priority_queries (qr : QueryResult) : List Str :=
  [qr.best_query, qr.combined_query, qr.original_query] ++ qr.sub_queries

/-- The two retrieval loops of process_query (main.py lines 174-187): one
search per variant, formatted and appended to all_contexts in loop order.
The external index is abstracted by searchFn, giving the hits for a query. -/
def all_contexts {σ : Type} (fmtScore : σ → Str)
    (searchFn : Str → List (σ × ChunkRecord)) (qr : QueryResult) : List Str :=
  ([qr.best_query, qr.combined_query, qr.original_query].map fun q =>
      format_search_results fmtScore (searchFn q) q)
    ++ (qr.sub_queries.map fun q => format_search_results fmtScore (searchFn q) q)

/-- combined_context, the newline join of all_contexts (main.py line 190). -/
def combined_context {σ : Type} (fmtScore : σ → Str)
    (searchFn : Str → List (σ × ChunkRecord)) (qr : QueryResult) : Str :=
  joinSep (str "\n") (all_contexts fmtScore searchFn qr)

/-- Modelled from the spec: a parenthesized-integer sub-clause label at the
start of the text, as in the spec's example of a label of the form open
parenthesis, digits, close parenthesis, then a clause title. No pattern in
the source matches this shape; the definition only serves to state claim
C2. -/
def startsWithParenInt (u : Str) : Bool :=
  u.take 1 == ['('] &&
    !((u.drop 1).takeWhile Char.isDigit).isEmpty &&
    ((u.drop 1).dropWhile Char.isDigit).take 1 == [')']

/- Auxiliary lemmas about the string model. -/

theorem dropWhile_length_le (p : Char → Bool) (l : Str) :
    (l.dropWhile p).length ≤ l.length := by
  induction l with
  | nil => simp
  | cons c cs ih =>
    rw [List.dropWhile_cons]
    by_cases h : p c = true
    · rw [if_pos h]
      exact le_trans ih (by simp)
    · rw [if_neg h]

theorem splitOnDot_ne_nil (s : Str) : splitOnDot s ≠ [] := by
  cases s with
  | nil => simp [splitOnDot]
  | cons c cs =>
    simp only [splitOnDot]
    by_cases h : c = '.'
    · simp [h]
    · rw [if_neg h]
      cases splitOnDot cs <;> simp

theorem joinSep_cons_cons (sep p q : Str) (ps : List Str) :
    joinSep sep (p :: q :: ps) = p ++ sep ++ joinSep sep (q :: ps) := rfl

theorem joinDot_cons_of_ne_nil (p : Str) (ps : List Str) (h : ps ≠ []) :
    joinDot (p :: ps) = p ++ '.' :: joinDot ps := by
  cases ps with
  | nil => exact absurd rfl h
  | cons q ps2 =>
    show joinSep ['.'] (p :: q :: ps2) = _
    rw [joinSep_cons_cons]
    simp [joinDot, List.append_assoc]

theorem joinDot_splitOnDot (s : Str) : joinDot (splitOnDot s) = s := by
  induction s with
  | nil => rfl
  | cons c cs ih =>
    by_cases h : c = '.'
    · subst h
      rw [show splitOnDot ('.' :: cs) = [] :: splitOnDot cs from by simp [splitOnDot]]
      rw [joinDot_cons_of_ne_nil [] _ (splitOnDot_ne_nil cs)]
      simp [ih]
    · cases hs : splitOnDot cs with
      | nil => exact absurd hs (splitOnDot_ne_nil cs)
      | cons p ps =>
        have hsplit : splitOnDot (c :: cs) = (c :: p) :: ps := by
          simp [splitOnDot, h, hs]
        rw [hsplit]
        cases ps with
        | nil =>
          have hp : p = cs := by
            have hcopy := ih
            rw [hs] at hcopy
            simpa [joinDot, joinSep] using hcopy
          simp [joinDot, joinSep, hp]
        | cons q ps2 =>
          rw [joinDot_cons_of_ne_nil _ _ (by simp)]
          rw [hs] at ih
          rw [joinDot_cons_of_ne_nil _ _ (by simp)] at ih
          rw [List.cons_append, ih]

theorem dot_mem_iff_splitOnDot (s : Str) : '.' ∈ s ↔ 2 ≤ (splitOnDot s).length := by
  induction s with
  | nil => simp [splitOnDot]
  | cons c cs ih =>
    by_cases h : c = '.'
    · subst h
      simp only [splitOnDot, List.length_cons]
      constructor
      · intro _
        cases hs : splitOnDot cs with
        | nil => exact absurd hs (splitOnDot_ne_nil cs)
        | cons p ps => simp [hs]
      · intro _
        exact List.mem_cons_self _ _
    · cases hs : splitOnDot cs with
      | nil => exact absurd hs (splitOnDot_ne_nil cs)
      | cons p ps =>
        have hsplit : splitOnDot (c :: cs) = (c :: p) :: ps := by
          simp [splitOnDot, h, hs]
        rw [hsplit]
        rw [hs] at ih
        simp only [List.length_cons] at ih ⊢
        constructor
        · intro hm
          rcases List.mem_cons.1 hm with h1 | h2
          · exact absurd h1.symm h
          · have := ih.1 h2
            omega
        · intro hl
          have : '.' ∈ cs := ih.2 (by omega)
          exact List.mem_cons_of_mem _ this

theorem joinDot_append_singleton (l : List Str) (x : Str) (h : l ≠ []) :
    joinDot (l ++ [x]) = joinDot l ++ '.' :: x := by
  induction l with
  | nil => exact absurd rfl h
  | cons p ps ih =>
    cases ps with
    | nil =>
      show joinDot [p, x] = joinDot [p] ++ '.' :: x
      simp [joinDot, joinSep]
    | cons q ps2 =>
      rw [List.cons_append, joinDot_cons_of_ne_nil _ _ (by simp),
        joinDot_cons_of_ne_nil _ _ (by simp), ih (by simp)]
      simp [List.append_assoc]

theorem length_truncOnce_lt (s : Str) (h : '.' ∈ s) : (truncOnce s).length < s.length := by
  have h2 : 2 ≤ (splitOnDot s).length := (dot_mem_iff_splitOnDot s).1 h
  have hne : splitOnDot s ≠ [] := splitOnDot_ne_nil s
  have hdl : (splitOnDot s).dropLast ≠ [] := by
    have hlen := List.length_dropLast (splitOnDot s)
    intro hdd
    rw [hdd] at hlen
    simp at hlen
    omega
  have hsplit := List.dropLast_append_getLast hne
  have key : joinDot ((splitOnDot s).dropLast ++ [(splitOnDot s).getLast hne]) = s := by
    rw [hsplit, joinDot_splitOnDot]
  rw [joinDot_append_singleton _ _ hdl] at key
  have hlen := congrArg List.length key
  rw [List.length_append, List.length_cons] at hlen
  show (joinDot (splitOnDot s).dropLast).length < s.length
  omega

/- Fuel stability and the loop equation for the resolution walk: the fuel
code.length + 1 chosen in pathLoop is enough, because every truncation
strictly shortens the code. -/

theorem pathLoopF_stable (m : HMap) :
    ∀ f g code, code.length < f → code.length < g →
      pathLoopF m f code = pathLoopF m g code := by
  intro f
  induction f with
  | zero =>
    intro g code hf _
    omega
  | succ f ih =>
    intro g code hf hg
    cases g with
    | zero => omega
    | succ g =>
      simp only [pathLoopF]
      by_cases hc : code = []
      · simp [hc]
      · simp only [if_neg hc]
        by_cases hd : '.' ∈ code
        · have hlt := length_truncOnce_lt code hd
          rw [if_pos hd, if_pos hd, ih g (truncOnce code) (by omega) (by omega)]
        · rw [if_neg hd, if_neg hd]

theorem pathLoop_eq (m : HMap) (code : Str) :
    pathLoop m code =
      if code = [] then []
      else
        (match lookupCode m code with
         | some e => [e.title]
         | none => []) ++
          (if '.' ∈ code then pathLoop m (truncOnce code) else []) := by
  unfold pathLoop
  conv_lhs => rw [pathLoopF]
  by_cases hc : code = []
  · simp [hc]
  · simp only [if_neg hc]
    by_cases hd : '.' ∈ code
    · rw [if_pos hd, if_pos hd,
        pathLoopF_stable m code.length ((truncOnce code).length + 1) (truncOnce code)
          (length_truncOnce_lt code hd) (by omega)]
    · rw [if_neg hd, if_neg hd]

theorem pathLoopF_eq_chainCodesF (m : HMap) :
    ∀ fuel code,
      pathLoopF m fuel code =
        (chainCodesF fuel code).filterMap fun cd => (lookupCode m cd).map HEntry.title := by
  intro fuel
  induction fuel with
  | zero => intro code; rfl
  | succ fuel ih =>
    intro code
    simp only [pathLoopF, chainCodesF]
    by_cases hc : code = []
    · simp [hc]
    · simp only [if_neg hc, List.filterMap_cons]
      by_cases hd : '.' ∈ code
      · rw [if_pos hd, if_pos hd, ih]
        cases lookupCode m code <;> simp
      · rw [if_neg hd, if_neg hd]
        cases lookupCode m code <;> simp

theorem pathLoopF_ext (m1 m2 : HMap)
    (hm : ∀ cd, lookupCode m1 cd = lookupCode m2 cd) :
    ∀ fuel code, pathLoopF m1 fuel code = pathLoopF m2 fuel code := by
  intro fuel
  induction fuel with
  | zero => intro code; rfl
  | succ fuel ih =>
    intro code
    simp only [pathLoopF]
    rw [hm code]
    by_cases hc : code = []
    · simp [hc]
    · simp only [if_neg hc]
      by_cases hd : '.' ∈ code
      · rw [if_pos hd, if_pos hd, ih]
      · rw [if_neg hd, if_neg hd]

theorem pathLoopF_reverse (m : HMap) :
    ∀ fuel code, (pathLoopF m fuel code).reverse = resolveSpecSkipsF m fuel code := by
  intro fuel
  induction fuel with
  | zero => intro code; rfl
  | succ fuel ih =>
    intro code
    simp only [pathLoopF, resolveSpecSkipsF]
    by_cases hc : code = []
    · simp [hc]
    · simp only [if_neg hc]
      by_cases hd : '.' ∈ code
      · rw [if_pos hd, if_pos hd, List.reverse_append, ih]
        cases lookupCode m code <;> simp
      · rw [if_neg hd, if_neg hd]
        cases lookupCode m code <;> simp

theorem get_full_hierarchy_path_eq_chain (code : Str) (m : HMap) :
    get_full_hierarchy_path code m =
      joinSep (str " > ")
        (((chainCodes code).filterMap fun cd => (lookupCode m cd).map HEntry.title).reverse) := by
  unfold get_full_hierarchy_path pathLoop chainCodes
  by_cases hc : code = []
  · rw [if_pos hc]
    subst hc
    rfl
  · rw [if_neg hc, pathLoopF_eq_chainCodesF]

theorem get_full_hierarchy_path_ext (code : Str) (m1 m2 : HMap)
    (hm : ∀ cd, lookupCode m1 cd = lookupCode m2 cd) :
    get_full_hierarchy_path code m1 = get_full_hierarchy_path code m2 := by
  unfold get_full_hierarchy_path pathLoop
  rw [pathLoopF_ext m1 m2 hm]

/- The multiline search returns no match exactly when no line-start suffix
matches the heading pattern. -/

theorem scanLinesF_none_iff :
    ∀ fuel u, u.length < fuel →
      (scanLinesF fuel u = none ↔ ∀ v ∈ lineSuffixesF fuel u, matchHeadingAt v = none) := by
  intro fuel
  induction fuel with
  | zero =>
    intro u h
    omega
  | succ fuel ih =>
    intro u hu
    simp only [scanLinesF, lineSuffixesF]
    cases hm : matchHeadingAt u with
    | some x =>
      constructor
      · intro hfalse
        exact absurd hfalse (by simp)
      · intro hall
        have := hall u (List.mem_cons_self _ _)
        rw [hm] at this
        exact absurd this (by simp)
    | none =>
      cases hdw : u.dropWhile (fun ch => ch != '\n') with
      | nil => simp [hm, hdw]
      | cons x tl =>
        have htl : tl.length < fuel := by
          have h1 := dropWhile_length_le (fun ch => ch != '\n') u
          rw [hdw] at h1
          simp only [List.length_cons] at h1
          omega
        rw [ih tl htl]
        simp [hm, hdw]

/- Structure of the record-building loop. -/

theorem recordsLoop_length (m : HMap) :
    ∀ texts idx stack, (recordsLoop m idx stack texts).length = texts.length := by
  intro texts
  induction texts with
  | nil =>
    intro idx stack
    rfl
  | cons c cs ih =>
    intro idx stack
    simp only [recordsLoop, List.length_cons, ih]

theorem recordsLoop_append (m : HMap) (rest : List Str) :
    ∀ pre idx stack,
      recordsLoop m idx stack (pre ++ rest) =
        recordsLoop m idx stack pre ++
          recordsLoop m (idx + pre.length) (pre.foldl stackStep stack) rest := by
  intro pre
  induction pre with
  | nil =>
    intro idx stack
    simp [recordsLoop]
  | cons p ps ih =>
    intro idx stack
    simp only [List.cons_append, recordsLoop, List.foldl_cons, List.length_cons,
      List.append_eq]
    rw [ih (idx + 1) (stackStep stack p)]
    have harith : idx + 1 + ps.length = idx + (ps.length + 1) := by omega
    rw [harith]

theorem upsert_hierarchy_at_heading (pre : List Str) (c : Str) (post : List Str)
    (code heading_title : Str) (level : Nat)
    (h : extract_heading_and_hierarchy c = some (code, heading_title, level)) :
    ((upsert_points (pre ++ c :: post))[pre.length]?).map ChunkRecord.hierarchy =
      some (get_full_hierarchy_path code (build_hierarchical_structure (pre ++ c :: post))) := by
  unfold upsert_points
  rw [recordsLoop_append]
  rw [List.getElem?_append_right (by simp [recordsLoop_length])]
  rw [recordsLoop_length]
  simp only [Nat.sub_self, Nat.zero_add]
  simp only [recordsLoop, List.getElem?_cons_zero, Option.map_some']
  simp [h]

theorem upsert_hierarchy_at_noheading (pre : List Str) (c : Str) (post : List Str)
    (h : extract_heading_and_hierarchy c = none) :
    ((upsert_points (pre ++ c :: post))[pre.length]?).map ChunkRecord.hierarchy =
      some (if pre.foldl stackStep [] = [] then []
            else joinSep (str " > ") (pre.foldl stackStep [])) := by
  unfold upsert_points
  rw [recordsLoop_append]
  rw [List.getElem?_append_right (by simp [recordsLoop_length])]
  rw [recordsLoop_length]
  simp only [Nat.sub_self, Nat.zero_add]
  simp only [recordsLoop, List.getElem?_cons_zero, Option.map_some']
  simp [h]

theorem foldl_stackStep_of_none (pre : List Str)
    (h : ∀ p ∈ pre, extract_heading_and_hierarchy p = none) :
    ∀ stack, pre.foldl stackStep stack = stack := by
  induction pre with
  | nil =>
    intro stack
    rfl
  | cons p ps ih =>
    intro stack
    rw [List.foldl_cons]
    have hp := h p (List.mem_cons_self _ _)
    rw [show stackStep stack p = stack from by simp [stackStep, hp]]
    exact ih (fun q hq => h q (List.mem_cons_of_mem _ hq)) stack

theorem build_append_heading (texts : List Str) (t code heading_title : Str) (level : Nat)
    (h : extract_heading_and_hierarchy t = some (code, heading_title, level)) :
    lookupCode (build_hierarchical_structure (texts ++ [t])) code =
      some ⟨heading_title, level, t⟩ := by
  unfold build_hierarchical_structure
  rw [List.foldl_append]
  simp [h, lookupCode]

theorem gt_mem_joinSep_three (t1 t2 t3 : Str) :
    '>' ∈ joinSep (str " > ") [t1, t2, t3] := by
  rw [joinSep_cons_cons]
  exact List.mem_append.2 (Or.inl (List.mem_append.2 (Or.inr (by decide))))

/- Claim theorems. -/

/-- Claim C1, counterexample: the single-chunk document whose chunk is the
heading 150.7.1 with title Permitted Uses yields a record of level 2 whose
stored hierarchy string is the single title Permitted Uses, which is not the
join of 2 + 1 ancestor titles as the claim requires, since the join of three
titles always contains the delimiter character. -/
theorem C1_counterexample :
    (((upsert_points [str "150.7.1 Permitted Uses"])[0]?).map
      (fun r => (r.level, r.hierarchy)) = some (2, str "Permitted Uses")) ∧
    ¬ ∃ t1 t2 t3 : Str, str "Permitted Uses" = joinSep (str " > ") [t1, t2, t3] := by
  refine ⟨by decide, ?_⟩
  rintro ⟨t1, t2, t3, heq⟩
  have hgt : '>' ∈ joinSep (str " > ") [t1, t2, t3] := gt_mem_joinSep_three t1 t2 t3
  rw [← heq] at hgt
  exact absurd hgt (by decide)

/-- Claim C1, amended: for every chunk whose text yields a numbered heading of
code c and level L, the stored hierarchy string is the join, with the fixed
delimiter and in root-to-leaf order, of the index titles of exactly those
dot-truncation prefixes of c (the code itself included) that are present in
the HierarchyIndex built over all chunks — at most L titles, not L + 1,
because the walked prefixes of a level-L code number L + 1 and the final
dot-free prefix is never an index key. -/
theorem C1_hierarchy_is_defined_prefix_titles (pre : List Str) (c : Str) (post : List Str)
    (code heading_title : Str) (level : Nat)
    (h : extract_heading_and_hierarchy c = some (code, heading_title, level)) :
    ((upsert_points (pre ++ c :: post))[pre.length]?).map ChunkRecord.hierarchy =
      some (joinSep (str " > ")
        (((chainCodes code).filterMap fun cd =>
            (lookupCode (build_hierarchical_structure (pre ++ c :: post)) cd).map
              HEntry.title).reverse)) := by
  rw [upsert_hierarchy_at_heading pre c post code heading_title level h,
    get_full_hierarchy_path_eq_chain]

/-- Witness for C1: a concrete level-2 heading chunk, its stored hierarchy
evaluated through the amended claim. -/
theorem C1_hierarchy_is_defined_prefix_titles_witness :
    ((upsert_points [str "150.7.2 Lot Coverage"])[0]?).map ChunkRecord.hierarchy =
      some (str "Lot Coverage") := by
  have h := C1_hierarchy_is_defined_prefix_titles [] (str "150.7.2 Lot Coverage") []
    (str "150.7.2") (str "Lot Coverage") 2 (by decide)
  exact h.trans (by decide)

/-- Claim C2, counterexample: a chunk whose trimmed text begins with the
parenthesized-integer label (3) is not recognized as any heading, so its
stored hierarchy is the inherited hierarchy Uses unchanged, not the claimed
Uses > Some Clause. -/
theorem C2_counterexample :
    extract_heading_and_hierarchy (str "(3) Some Clause") = none ∧
    ((upsert_points [str "150.7 Uses", str "(3) Some Clause"])[1]?).map
      ChunkRecord.hierarchy = some (str "Uses") ∧
    str "Uses" ≠ str "Uses > Some Clause" := by
  refine ⟨by decide, by decide, by decide⟩

/-- Claim C2, amended: a chunk whose trimmed text begins with a
parenthesized-integer label, and no further line of which begins with a
numbered heading code (the line-start suffixes after the first all fail the
heading pattern, so the multiline search cannot match elsewhere), is treated
as an ordinary no-heading chunk: no heading is extracted, its stored
hierarchy equals the inherited running-stack hierarchy with no sub-clause
title appended, and the ancestor stack used by subsequent numbered headings
is unchanged. The first line itself can never match, since it starts with an
opening parenthesis. -/
theorem C2_paren_label_not_special (pre : List Str) (c : Str) (post : List Str)
    (hp : startsWithParenInt (strip c) = true)
    (hrest : ∀ v ∈ (lineSuffixes (strip c)).tail, matchHeadingAt v = none) :
    extract_heading_and_hierarchy c = none ∧
    ((upsert_points (pre ++ c :: post))[pre.length]?).map ChunkRecord.hierarchy =
      some (if pre.foldl stackStep [] = [] then []
            else joinSep (str " > ") (pre.foldl stackStep [])) ∧
    (pre ++ [c]).foldl stackStep [] = pre.foldl stackStep [] := by
  have h1 : (strip c).take 1 = ['('] := by
    have hsp := hp
    unfold startsWithParenInt at hsp
    simp only [Bool.and_eq_true, beq_iff_eq] at hsp
    exact hsp.1.1
  have hmatch : matchHeadingAt (strip c) = none := by
    have hne : ¬ ((strip c).take 5 = str "150.7") := by
      intro habs
      have htake : (strip c).take 1 = List.take 1 (str "150.7") := by
        have ht := congrArg (List.take 1) habs
        rwa [List.take_take, show min 1 5 = 1 from rfl] at ht
      rw [h1] at htake
      exact absurd htake (by decide)
    unfold matchHeadingAt
    rw [if_neg hne]
  have hnone : extract_heading_and_hierarchy c = none := by
    have hall : ∀ v ∈ lineSuffixes (strip c), matchHeadingAt v = none := by
      intro v hv
      rw [show lineSuffixes (strip c) =
          strip c :: (lineSuffixes (strip c)).tail from rfl] at hv
      rcases List.mem_cons.1 hv with hv1 | hv2
      · rw [hv1]
        exact hmatch
      · exact hrest v hv2
    have hscan : scanLinesF ((strip c).length + 1) (strip c) = none :=
      (scanLinesF_none_iff ((strip c).length + 1) (strip c) (by omega)).2
        (by unfold lineSuffixes at hall; exact hall)
    unfold extract_heading_and_hierarchy scanLines
    rw [hscan]
  refine ⟨hnone, upsert_hierarchy_at_noheading pre c post hnone, ?_⟩
  rw [List.foldl_append, List.foldl_cons, List.foldl_nil]
  rw [show stackStep (pre.foldl stackStep []) c = pre.foldl stackStep [] from by
    simp [stackStep, hnone]]

/-- Witness for C2: a concrete multi-line sub-clause chunk after a heading
chunk inherits the heading's hierarchy unchanged. -/
theorem C2_paren_label_not_special_witness :
    ((upsert_points
        [str "150.7 Uses", str "(3) Some Clause\nmore body text"])[1]?).map
      ChunkRecord.hierarchy = some (str "Uses") := by
  have h := (C2_paren_label_not_special [str "150.7 Uses"]
    (str "(3) Some Clause\nmore body text") [] (by decide) (by decide)).2.1
  exact h.trans (by decide)

/-- Claim C3, counterexample: the trimmed text intro newline 150.7 Uses does
not begin with a heading code, yet the parser returns the heading found on
the second line instead of the claimed no-heading outcome, because the
search is anchored per line, not to the start of the text. -/
theorem C3_counterexample :
    matchHeadingAt (strip (str "intro\n150.7 Uses")) = none ∧
    extract_heading_and_hierarchy (str "intro\n150.7 Uses") =
      some (str "150.7", str "Uses", 1) := by
  refine ⟨by decide, by decide⟩

/-- Claim C3, amended: the parser returns the no-heading outcome exactly when
no line of the trimmed chunk text begins with the dot-separated numeric
code; a matching heading line later inside the chunk is recognized, the
leftmost matching line winning. -/
theorem C3_heading_found_iff_some_line (text : Str) :
    extract_heading_and_hierarchy text = none ↔
      ∀ v ∈ lineSuffixes (strip text), matchHeadingAt v = none := by
  unfold extract_heading_and_hierarchy scanLines lineSuffixes
  rw [← scanLinesF_none_iff ((strip text).length + 1) (strip text) (by omega)]
  cases h : scanLinesF ((strip text).length + 1) (strip text) with
  | none => simp
  | some x =>
    cases x with
    | mk code title => simp

/-- Witness for C3: a concrete chunk none of whose lines begins with a heading
code parses to the no-heading outcome, through the amended claim. -/
theorem C3_heading_found_iff_some_line_witness :
    extract_heading_and_hierarchy (str "body text\nmore body") = none :=
  (C3_heading_found_iff_some_line (str "body text\nmore body")).2 (by decide)

/-- Claim C4, counterexample: in the document 150.7.1 A, 150.7.1.2 B,
150.7.3 C, body, the no-heading chunk body stores hierarchy A > B > C from
the running stack, while the nearest preceding chunk that established a
hierarchy (the heading chunk 150.7.3 C) stored C from the prebuilt index, so
the two differ. -/
theorem C4_counterexample :
    ((upsert_points
        [str "150.7.1 A", str "150.7.1.2 B", str "150.7.3 C", str "body"])[3]?).map
      ChunkRecord.hierarchy = some (str "A > B > C") ∧
    ((upsert_points
        [str "150.7.1 A", str "150.7.1.2 B", str "150.7.3 C", str "body"])[2]?).map
      ChunkRecord.hierarchy = some (str "C") ∧
    str "A > B > C" ≠ str "C" := by
  refine ⟨by decide, by decide, by decide⟩

/-- Claim C4, amended: a no-heading chunk stores the join of the running
ancestor stack left by the preceding chunks (truncate-to-level then append
per heading), which is empty when no preceding chunk has a heading; this can
differ from the hierarchy stored by the nearest preceding heading chunk,
whose stored string comes from the prebuilt index instead of the stack. -/
theorem C4_noheading_inherits_running_stack (pre : List Str) (c : Str) (post : List Str)
    (h : extract_heading_and_hierarchy c = none) :
    ((upsert_points (pre ++ c :: post))[pre.length]?).map ChunkRecord.hierarchy =
      some (if pre.foldl stackStep [] = [] then []
            else joinSep (str " > ") (pre.foldl stackStep [])) ∧
    ((∀ p ∈ pre, extract_heading_and_hierarchy p = none) →
      ((upsert_points (pre ++ c :: post))[pre.length]?).map ChunkRecord.hierarchy =
        some []) := by
  refine ⟨upsert_hierarchy_at_noheading pre c post h, fun hall => ?_⟩
  rw [upsert_hierarchy_at_noheading pre c post h, foldl_stackStep_of_none pre hall]
  simp

/-- Witness for C4: a concrete body chunk after one heading chunk inherits
that heading's stack hierarchy. -/
theorem C4_noheading_inherits_running_stack_witness :
    ((upsert_points [str "150.7 Uses", str "body text"])[1]?).map
      ChunkRecord.hierarchy = some (str "Uses") := by
  have h := (C4_noheading_inherits_running_stack [str "150.7 Uses"] (str "body text") []
    (by decide)).1
  exact h.trans (by decide)

/-- Claim C5, counterexample: with the index defining 150.7.1.2 as D and 150.7
as R but not 150.7.1, the source resolution returns R > D (the absent prefix
is skipped and the walk continues), whereas the claimed algorithm, which
stops as soon as the current code is absent from the index, returns only D. -/
theorem C5_counterexample :
    get_full_hierarchy_path (str "150.7.1.2")
        [(str "150.7.1.2", ⟨ str "D", 3, str ""⟩), (str "150.7", ⟨ str "R", 1, str ""⟩)] =
      str "R > D" ∧
    joinSep (str " > ")
        (resolveSpecStops (str "150.7.1.2")
          [(str "150.7.1.2", ⟨ str "D", 3, str ""⟩), (str "150.7", ⟨ str "R", 1, str ""⟩)]) =
      str "D" ∧
    str "R > D" ≠ str "D" := by
  refine ⟨by decide, by decide, by decide⟩

/-- Claim C5, amended: ancestor-path resolution follows the specified
algorithm with one change: an absent code contributes no title but does not
stop the walk — the loop stops only when the current code has no remaining
dot separator (or is empty). -/
theorem C5_resolution_follows_amended_algorithm (code : Str) (m : HMap) :
    get_full_hierarchy_path code m = joinSep (str " > ") (resolveSpecSkips code m) := by
  unfold get_full_hierarchy_path pathLoop resolveSpecSkips
  by_cases hc : code = []
  · rw [if_pos hc]
    subst hc
    rfl
  · rw [if_neg hc, pathLoopF_reverse]

/-- Witness for C5: the amended equality at a concrete code and index. -/
theorem C5_resolution_follows_amended_algorithm_witness :
    get_full_hierarchy_path (str "150.7.5") [] =
      joinSep (str " > ") (resolveSpecSkips (str "150.7.5") []) :=
  C5_resolution_follows_amended_algorithm (str "150.7.5") []

/-- Claim C6, confirmed: for every heading code and every HierarchyIndex,
resolution is total and returns exactly the titles of the walked
dot-truncation prefixes (the code itself included) that exist in the index,
in root-to-leaf order joined by the fixed delimiter; absent prefixes are
silently skipped, and a code all of whose prefixes are undefined resolves to
the empty string rather than an error. -/
theorem C6_resolution_total_titles_of_existing_prefixes (code : Str) (m : HMap) :
    (get_full_hierarchy_path code m =
      joinSep (str " > ")
        (((chainCodes code).filterMap fun cd =>
            (lookupCode m cd).map HEntry.title).reverse)) ∧
    ((∀ cd ∈ chainCodes code, lookupCode m cd = none) →
      get_full_hierarchy_path code m = []) := by
  refine ⟨get_full_hierarchy_path_eq_chain code m, fun hall => ?_⟩
  rw [get_full_hierarchy_path_eq_chain code m]
  have hnil : ((chainCodes code).filterMap fun cd =>
      (lookupCode m cd).map HEntry.title) = [] := by
    rw [List.filterMap_eq_nil_iff]
    intro cd hcd
    rw [hall cd hcd]
    rfl
  rw [hnil]
  rfl

/-- Witness for C6: a code none of whose prefixes is defined resolves to the
empty string. -/
theorem C6_resolution_total_titles_of_existing_prefixes_witness :
    get_full_hierarchy_path (str "150.7.4.9") [] = [] :=
  (C6_resolution_total_titles_of_existing_prefixes (str "150.7.4.9") []).2
    (fun _ _ => rfl)

/-- Claim C7, counterexample: a search against an absent collection, or a
present but empty one, returns the None sentinel, which is not the empty
result set — the caller must distinguish None from a result object with zero
hits. -/
theorem C7_counterexample :
    search_similar_texts CollectionInfo.absent [(1 : Rat)] ([] : List Nat) = none ∧
    search_similar_texts (CollectionInfo.present 0) [(1 : Rat)] ([] : List Nat) = none ∧
    search_similar_texts CollectionInfo.absent [(1 : Rat)] ([] : List Nat) ≠ some [] := by
  refine ⟨rfl, by decide, by decide⟩

/-- Claim C7, amended: in the chunk_pdf_local variant a search against an index
that cannot serve it (collection absent, or present but empty) returns the
None sentinel for that variant without querying the index and without
raising (the chunks_pdf variant performs no such guard); and a fused context
whose every variant returned zero hits is a valid output of retrieval
fusion, consisting of the labeled headers alone. -/
theorem C7_no_data_yields_none_and_valid_empty_fusion {α σ : Type}
    (e : List Rat) (qp : List α) (qr : QueryResult) (fmtScore : σ → Str) :
    search_similar_texts CollectionInfo.absent e qp = none ∧
    search_similar_texts (CollectionInfo.present 0) e qp = none ∧
    combined_context fmtScore (fun _ => []) qr =
      joinSep (str "\n") ((priority_queries qr).map headerOf) := by
  refine ⟨rfl, by simp [search_similar_texts], ?_⟩
  unfold combined_context all_contexts priority_queries
  simp [format_search_results, formatHits, List.map_append]

/-- Witness for C7: the all-empty fusion at a concrete decomposition. -/
theorem C7_no_data_yields_none_and_valid_empty_fusion_witness :
    combined_context (fun _ : Nat => str "0.0000") (fun _ => [])
        ⟨[str "height limits"], str "height and setbacks",
          str "height and setbacks", str "height"⟩ =
      joinSep (str "\n")
        ((priority_queries
            ⟨[str "height limits"], str "height and setbacks",
              str "height and setbacks", str "height"⟩).map headerOf) :=
  (C7_no_data_yields_none_and_valid_empty_fusion ([] : List Rat) ([] : List Nat)
    ⟨[str "height limits"], str "height and setbacks",
      str "height and setbacks", str "height"⟩ (fun _ : Nat => str "0.0000")).2.2

/-- Claim C8, confirmed: embedding generation returns exactly one vector per
input text; a text on which the embedding call fails is substituted with the
768-dimensional zero vector, and a successful call contributes its own
vector, so one failure never aborts the batch. -/
theorem C8_one_vector_per_text_with_zero_fallback
    (embed_content : Str → Option (List Rat)) (texts : List Str) :
    (get_embeddings embed_content texts).length = texts.length ∧
    (∀ (i : Nat) (t : Str), texts[i]? = some t → embed_content t = none →
      (get_embeddings embed_content texts)[i]? =
        some (List.replicate 768 (0 : Rat))) ∧
    (∀ (i : Nat) (t : Str) (v : List Rat), texts[i]? = some t → embed_content t = some v →
      (get_embeddings embed_content texts)[i]? = some v) := by
  refine ⟨by simp [get_embeddings], ?_, ?_⟩
  · intro i t ht hf
    unfold get_embeddings
    rw [List.getElem?_map, ht]
    simp [hf]
  · intro i t v ht hv
    unfold get_embeddings
    rw [List.getElem?_map, ht]
    simp [hv]

/-- Witness for C8: a failing embedding service yields the zero vector for the
failed text. -/
theorem C8_one_vector_per_text_with_zero_fallback_witness :
    (get_embeddings (fun _ => none) [str "zoning"])[0]? =
      some (List.replicate 768 (0 : Rat)) :=
  (C8_one_vector_per_text_with_zero_fallback (fun _ => none) [str "zoning"]).2.1 0
    (str "zoning") rfl rfl

/-- Claim C9, confirmed: retrieval fusion issues exactly one search per query
variant in the fixed priority order best query, combined query, original
query, then each sub-query in decomposition order; the fused context is the
newline join of one labeled block per variant in that same order, each block
beginning with the header that names the variant's query, and the order
never depends on the returned scores. -/
theorem C9_fusion_fixed_priority_order {σ : Type} (fmtScore : σ → Str)
    (searchFn : Str → List (σ × ChunkRecord)) (qr : QueryResult) :
    (all_contexts fmtScore searchFn qr =
      (priority_queries qr).map fun q =>
        format_search_results fmtScore (searchFn q) q) ∧
    (all_contexts fmtScore searchFn qr).length = 3 + qr.sub_queries.length ∧
    (∀ (hits : List (σ × ChunkRecord)) (q : Str),
      (format_search_results fmtScore hits q).take (headerOf q).length = headerOf q) ∧
    combined_context fmtScore searchFn qr =
      joinSep (str "\n")
        ((priority_queries qr).map fun q =>
          format_search_results fmtScore (searchFn q) q) := by
  have h1 : all_contexts fmtScore searchFn qr =
      (priority_queries qr).map fun q =>
        format_search_results fmtScore (searchFn q) q := by
    unfold all_contexts priority_queries
    rw [List.map_append]
  refine ⟨h1, ?_, ?_, ?_⟩
  · rw [h1]
    simp only [List.length_map, priority_queries, List.length_append,
      List.length_cons, List.length_nil]
    try omega
  · intro hits q
    unfold format_search_results
    exact List.take_left _ _
  · unfold combined_context
    rw [h1]

/-- Witness for C9: the fusion order at a concrete decomposition. -/
theorem C9_fusion_fixed_priority_order_witness :
    all_contexts (fun _ : Nat => str "0.0000") (fun _ => [])
        ⟨[str "a"], str "b", str "c", str "d"⟩ =
      (priority_queries ⟨[str "a"], str "b", str "c", str "d"⟩).map fun q =>
        format_search_results (fun _ : Nat => str "0.0000") [] q :=
  (C9_fusion_fixed_priority_order (fun _ : Nat => str "0.0000") (fun _ => [])
    ⟨[str "a"], str "b", str "c", str "d"⟩).1

/-- Claim C10, confirmed: a heading chunk's stored hierarchy is computed solely
from the HierarchyIndex built over the entire chunk sequence before any
record is built, not from the running stack; the index resolves a duplicate
code to its last writer; the stored hierarchy is unchanged under reordering
of the other chunks whenever the resulting index lookups agree; and
concretely a chunk's hierarchy can contain the title of a heading first
occurring in a later chunk. -/
theorem C10_heading_hierarchy_from_prebuilt_index (pre : List Str) (c : Str)
    (post : List Str) (code heading_title : Str) (level : Nat)
    (h : extract_heading_and_hierarchy c = some (code, heading_title, level)) :
    (((upsert_points (pre ++ c :: post))[pre.length]?).map ChunkRecord.hierarchy =
      some (get_full_hierarchy_path code
        (build_hierarchical_structure (pre ++ c :: post)))) ∧
    (∀ pre2 post2 : List Str,
      (∀ cd, lookupCode (build_hierarchical_structure (pre2 ++ c :: post2)) cd =
          lookupCode (build_hierarchical_structure (pre ++ c :: post)) cd) →
      ((upsert_points (pre2 ++ c :: post2))[pre2.length]?).map ChunkRecord.hierarchy =
        ((upsert_points (pre ++ c :: post))[pre.length]?).map ChunkRecord.hierarchy) ∧
    (∀ (texts : List Str) (t cd ttl : Str) (lvl : Nat),
      extract_heading_and_hierarchy t = some (cd, ttl, lvl) →
      lookupCode (build_hierarchical_structure (texts ++ [t])) cd =
        some ⟨ttl, lvl, t⟩) ∧
    (((upsert_points [str "150.7.1.2 Deep", str "150.7.1 Parent"])[0]?).map
      ChunkRecord.hierarchy = some (str "Parent > Deep")) := by
  refine ⟨upsert_hierarchy_at_heading pre c post code heading_title level h,
    fun pre2 post2 hm => ?_,
    fun texts t cd ttl lvl ht => build_append_heading texts t cd ttl lvl ht,
    by decide⟩
  rw [upsert_hierarchy_at_heading pre2 c post2 code heading_title level h,
    upsert_hierarchy_at_heading pre c post code heading_title level h,
    get_full_hierarchy_path_ext code _ _ hm]

/-- Witness for C10: a concrete heading chunk's stored hierarchy equals the
index resolution of its code. -/
theorem C10_heading_hierarchy_from_prebuilt_index_witness :
    ((upsert_points [str "150.7 General"])[0]?).map ChunkRecord.hierarchy =
      some (str "General") := by
  have h := (C10_heading_hierarchy_from_prebuilt_index [] (str "150.7 General") []
    (str "150.7") (str "General") 1 (by decide)).1
  exact h.trans (by decide)
